import Mathlib

/-!
Verification development for the webmesh control plane.

This file embeds, shallowly, the parts of the repository that the
checked properties are about:

* `pkg/store/fsm.go` — the replicated state machine `Apply` path
  (stale-replay guard, payload decoding, checkpoint persistence);
* `pkg/services/svcutil/peers.go` — per-node peer resolution
  (`WireGuardPeersFor`, `recursePeers`, `recurseEdges`, `contains`);
* the networking repository (`PutNetworkACL`, `DeleteNetworkACL`,
  `AppendNodeToRoute`, `GetRoute`, `PutRoute`);
* the bootstrap sequencer (`Bootstrap`).

Go machine integers (uint64 raft terms and indices) are modelled as `Nat`:
no arithmetic in the modelled code can overflow, since the only operations
performed on them are comparisons and stores.  Fallible Go functions
returning `error` become `Except String` values; an empty-string error
field models a nil error exactly as the Go response structs do.
-/

namespace Webmesh

/-! ## State machine: `pkg/store/fsm.go` -/

/-- Raft log entry types; `Apply` only decodes and dispatches
`raft.LogCommand` entries (`l.Type != raft.LogCommand` is skipped). -/
inductive RaftLogType where
  | command
  | other
  deriving DecidableEq, Repr

/-- The configured raft log encodings (`s.raftLogFormat`). -/
inductive RaftLogFormat where
  | json
  | protobuf
  | protobufSnappy
  deriving DecidableEq, Repr

/-- A raft log entry as consumed by `Apply` (`*raft.Log`).  The payload
type `B` abstracts the raw byte slice `l.Data`. -/
structure RaftLog (B : Type) where
  index : Nat
  term : Nat
  logType : RaftLogType
  data : B

/-- `v1.RaftApplyResponse`: an empty `error` string is a success marker,
exactly as in the Go struct. -/
structure RaftApplyResponse where
  time : String := ""
  error : String := ""
  deriving DecidableEq, Repr

/-- The external codecs and the command dispatcher used by `Apply`.
`decodeJSON`/`decodeProto` stand for `protojson.Unmarshal` and
`proto.Unmarshal`, `snappyDecode` for `snappy.Decode`; `applyInner`
stands for the private `s.apply` dispatch (defined outside the embedded
file), which may mutate the sub-store data and produce the response. -/
structure FSMEnv (B C D : Type) where
  decodeJSON : B → Except String C
  decodeProto : B → Except String C
  snappyDecode : B → Except String B
  applyInner : RaftLog B → C → D → D × RaftApplyResponse

/-- The store state visible to `Apply`: the persisted checkpoint row of
the local DB (`none` models `sql.ErrNoRows`), the sub-store data, and
the in-memory `raftIndex` atomic. -/
structure StoreState (D : Type) where
  checkpoint : Option (Nat × Nat)
  data : D
  raftIndex : Nat

/-- `getDBTermAndIndex`: a missing checkpoint row reads as `(0, 0)`. -/
def getDBTermAndIndex (cp : Option (Nat × Nat)) : Nat × Nat :=
  match cp with
  | none => (0, 0)
  | some ti => ti

/-- The decode switch of `Apply` over `s.raftLogFormat`: JSON and
protobuf decode directly, the snappy variant decompresses first. -/
def decodeLogEntry {B C D : Type} (env : FSMEnv B C D) (fmt : RaftLogFormat)
    (data : B) : Except String C :=
  match fmt with
  | .json => env.decodeJSON data
  | .protobuf => env.decodeProto data
  | .protobufSnappy =>
    match env.snappyDecode data with
    | .error e => .error e
    | .ok decoded => env.decodeProto decoded

/-- `(*store).Apply` from `pkg/store/fsm.go`.  Reads the checkpoint,
short-circuits stale entries, skips non-command entries, decodes the
payload, dispatches, and (on every path past the stale guard, via the
deferred closure) persists the new checkpoint `(l.Term, l.Index)`.
The deferred `s.raftIndex.Store(l.Index)` runs on every path. -/
def storeApply {B C D : Type} (env : FSMEnv B C D) (fmt : RaftLogFormat)
    (s : StoreState D) (l : RaftLog B) : RaftApplyResponse × StoreState D :=
  let ti := getDBTermAndIndex s.checkpoint
  let dbTerm := ti.1
  let dbIndex := ti.2
  if l.term < dbTerm then
    ({ error := "" }, { s with raftIndex := l.index })
  else if l.index ≤ dbIndex then
    ({ error := "" }, { s with raftIndex := l.index })
  else
    -- the deferred closure saving the new index runs on each path below
    let finish : RaftApplyResponse × D → RaftApplyResponse × StoreState D :=
      fun rd =>
        (rd.1,
          { checkpoint :=
              if dbIndex ≠ l.index then some (l.term, l.index) else s.checkpoint,
            data := rd.2,
            raftIndex := l.index })
    if l.logType ≠ .command then
      finish ({ error := "" }, s.data)
    else
      match decodeLogEntry env fmt l.data with
      | .error e =>
        finish ({ error := "unmarshal raft log entry: " ++ e }, s.data)
      | .ok cmd =>
        let dr := env.applyInner l cmd s.data
        finish (dr.2, dr.1)

/-- Sequential batch application (`ApplyBatch` calls `Apply` in order). -/
def applyAll {B C D : Type} (env : FSMEnv B C D) (fmt : RaftLogFormat)
    (s : StoreState D) (logs : List (RaftLog B)) : StoreState D :=
  logs.foldl (fun s l => (storeApply env fmt s l).2) s

/-- The persisted checkpoint pair as `Apply` reads it. -/
def cpPair {D : Type} (s : StoreState D) : Nat × Nat :=
  getDBTermAndIndex s.checkpoint

/-- An entry is successfully applied as a mutating command: it is a
command entry that passes the stale guard, decodes, and whose sub-store
dispatch reports no error. -/
def entryApplied {B C D : Type} (env : FSMEnv B C D) (fmt : RaftLogFormat)
    (s : StoreState D) (l : RaftLog B) : Bool :=
  let ti := getDBTermAndIndex s.checkpoint
  !(l.term < ti.1 : Bool) && (ti.2 < l.index : Bool) &&
    (l.logType = RaftLogType.command : Bool) &&
    (match decodeLogEntry env fmt l.data with
     | .error _ => false
     | .ok cmd => (env.applyInner l cmd s.data).2.error = "")

/-! ## Peer resolution: `pkg/services/svcutil/peers.go` -/

/-- A parsed `netip.Prefix`.  CIDR strings in the replicated state are
modelled as already-parsed prefixes compared by equality, exactly the
comparison `netip.Prefix` equality performs; `netip.ParsePrefix` and
`Prefix.String` become the identity. -/
abbrev Cidr := String

/-- `peers.Node`: a vertex of the topology graph.  The optional
addresses model `netip.Prefix.IsValid` (`none` is the invalid zero
prefix). -/
structure MeshNode where
  id : String
  publicKey : String := ""
  primaryEndpoint : String := ""
  wireguardEndpoints : List String := []
  zoneAwarenessID : String := ""
  privateIPv4 : Option Cidr := none
  networkIPv6 : Option Cidr := none
  deriving DecidableEq, Repr

/-- `v1.Route`: a named route advertising destination CIDRs on behalf of
a list of nodes. -/
structure Route where
  name : String
  nodes : List String := []
  dstCidrs : List Cidr := []
  nextHopNodes : List String := []
  deriving DecidableEq, Repr

/-- `v1.WireGuardPeer` as assembled by `WireGuardPeersFor`. -/
structure WireGuardPeer where
  id : String
  publicKey : String
  zoneAwarenessId : String
  primaryEndpoint : String
  wireguardEndpoints : List String
  addressIpv4 : String
  addressIpv6 : String
  allowedIps : List Cidr
  allowedRoutes : List Cidr
  deriving DecidableEq, Repr

/-- `contains` from `peers.go`: linear membership scan by `==`. -/
def contains (ss : List Cidr) (s : Cidr) : Bool :=
  match ss with
  | [] => false
  | v :: rest => if v = s then true else contains rest s

/-- `graph.Vertex`: look the node up by ID, erroring when absent. -/
def graphVertex (nodes : List MeshNode) (id : String) : Except String MeshNode :=
  match nodes.find? (fun n => n.id == id) with
  | some n => .ok n
  | none => .error "get vertex: vertex not found"

/-- `Networking.GetRoutesByNode`: the routes whose node list names the
given node (the `ListNetworkRoutesByNode` query). -/
def getRoutesByNode (routes : List Route) (nodeName : String) : List Route :=
  routes.filter (fun r => r.nodes.contains nodeName)

/-- The requesting node's advertised prefixes (`ourRoutes` in
`WireGuardPeersFor`): all destination CIDRs of its routes, in order. -/
def routeCidrsOf (rs : List Route) : List Cidr :=
  rs.foldl (fun acc r => acc ++ r.dstCidrs) []

/-- Go `map[string]struct{}` insertion for the visited set. -/
def insertId (id : String) (visited : List String) : List String :=
  if visited.contains id then visited else visited ++ [id]

/-- The unconditional appends of a node's own private addresses
(`node.PrivateIPv4` / `node.NetworkIPv6` when valid). -/
def appendAddrs (acc : List Cidr) (n : MeshNode) : List Cidr :=
  let acc := match n.privateIPv4 with
    | some a => acc ++ [a]
    | none => acc
  match n.networkIPv6 with
  | some a => acc ++ [a]
  | none => acc

/-- The route-advertising branch: every destination CIDR of the peer's
routes is appended unless it is already collected or duplicates one the
requesting node advertises itself
(`!contains(allowedIPs, prefix) && !contains(thisRoutes, prefix)`). -/
def appendCidrList (acc : List Cidr) (thisRoutes : List Cidr)
    (cidrs : List Cidr) : List Cidr :=
  cidrs.foldl
    (fun acc pfx =>
      if contains acc pfx || contains thisRoutes pfx then acc
      else acc ++ [pfx])
    acc

/-- The outer loop of the route-advertising branch over the peer's
routes. -/
def appendRouteCidrs (acc : List Cidr) (thisRoutes : List Cidr)
    (rs : List Route) : List Cidr :=
  rs.foldl (fun acc r => appendCidrList acc thisRoutes r.dstCidrs) acc

/-- Guarded merge (`if !contains(dst, x) { dst = append(dst, x) }`),
used both for the requesting node's routes and for folding recursive
results into the caller's lists. -/
def appendMissing (acc : List Cidr) (l : List Cidr) : List Cidr :=
  l.foldl (fun acc x => if contains acc x then acc else acc ++ [x]) acc

/-- The loop body of `recurseEdges` over the targets of the current
node's adjacency, threading the shared visited set.  The recursive
descent into a fresh target is abstracted as `enter` (tied back to
`recurseEdges` itself one fuel level down). -/
def recurseEdgesLoop
    (enter : MeshNode → List String →
      Except String (List Cidr × List Cidr × List String))
    (nodes : List MeshNode) (routes : List Route)
    (adj : String → List String) (thisPeer : String)
    (thisRoutes : List Cidr) :
    (targets : List String) → (visited : List String) →
    (accIPs : List Cidr) → (accRoutes : List Cidr) →
    Except String (List Cidr × List Cidr × List String)
  | [], visited, accIPs, accRoutes => .ok (accIPs, accRoutes, visited)
  | t :: rest, visited, accIPs, accRoutes =>
    if t = thisPeer then
      recurseEdgesLoop enter nodes routes adj thisPeer thisRoutes rest
        visited accIPs accRoutes
    else if (adj thisPeer).contains t then
      recurseEdgesLoop enter nodes routes adj thisPeer thisRoutes rest
        visited accIPs accRoutes
    else if visited.contains t then
      recurseEdgesLoop enter nodes routes adj thisPeer thisRoutes rest
        visited accIPs accRoutes
    else
      match graphVertex nodes t with
      | .error e => .error e
      | .ok targetNode =>
        let accIPs := appendAddrs accIPs targetNode
        let targetRoutes := getRoutesByNode routes targetNode.id
        let accIPs :=
          if targetRoutes.isEmpty then accIPs
          else appendRouteCidrs accIPs thisRoutes targetRoutes
        let accRoutes :=
          if targetRoutes.isEmpty && !thisRoutes.isEmpty then
            appendMissing accRoutes thisRoutes
          else accRoutes
        let visited := insertId t visited
        match enter targetNode visited with
        | .error e => .error e
        | .ok (ips, ipRoutes, visited') =>
          let accIPs := appendMissing accIPs ips
          let accRoutes := appendMissing accRoutes ipRoutes
          recurseEdgesLoop enter nodes routes adj thisPeer thisRoutes
            rest visited' accIPs accRoutes

/-- `recurseEdges`: mark the node visited and walk its permitted
targets, collecting transitive addresses and routes.  The `fuel`
argument is a modelling artifact standing for Go's termination by the
finite visited set: every recursive descent consumes one unit, and the
callers supply more fuel than there are nodes, so the fuel-exhausted
error is unreachable on the states the theorems quantify over (they all
condition on an `ok` result). -/
def recurseEdges (nodes : List MeshNode) (routes : List Route)
    (adj : String → List String) (thisPeer : String)
    (thisRoutes : List Cidr) :
    (fuel : Nat) → (node : MeshNode) → (visited : List String) →
    Except String (List Cidr × List Cidr × List String)
  | 0, _, _ => .error "recursion fuel exhausted"
  | f + 1, node, visited =>
    recurseEdgesLoop
      (fun n v => recurseEdges nodes routes adj thisPeer thisRoutes f n v)
      nodes routes adj thisPeer thisRoutes (adj node.id)
      (insertId node.id visited) [] []

/-- `recursePeers`: the direct peer's own addresses, its advertised
routes (or, failing that, the requesting node's routes into
`allowedRoutes`), and the merged transitive contributions. -/
def recursePeers (nodes : List MeshNode) (routes : List Route)
    (adj : String → List String) (thisPeer : String)
    (thisRoutes : List Cidr) (node : MeshNode) :
    Except String (List Cidr × List Cidr) :=
  let allowedIPs := appendAddrs [] node
  let nodeRoutes := getRoutesByNode routes node.id
  let allowedIPs :=
    if nodeRoutes.isEmpty then allowedIPs
    else appendRouteCidrs allowedIPs thisRoutes nodeRoutes
  let allowedRoutes : List Cidr :=
    if nodeRoutes.isEmpty && !thisRoutes.isEmpty then
      appendMissing [] thisRoutes
    else []
  match recurseEdges nodes routes adj thisPeer thisRoutes
      (nodes.length + 1) node [] with
  | .error e => .error e
  | .ok (edgeIPs, edgeRoutes, _) =>
    .ok (appendMissing allowedIPs edgeIPs, appendMissing allowedRoutes edgeRoutes)

/-- The preferred wireguard endpoint selection in `WireGuardPeersFor`:
the first wireguard endpoint extending `node.PrimaryEndpoint`, else the
first wireguard endpoint, else empty. -/
def primaryEndpointFor (node : MeshNode) : String :=
  let pe :=
    if node.primaryEndpoint ≠ "" then
      match node.wireguardEndpoints.find?
          (fun ep => ep.startsWith node.primaryEndpoint) with
      | some ep => ep
      | none => ""
    else ""
  if pe = "" then
    match node.wireguardEndpoints with
    | [] => ""
    | ep :: _ => ep
  else pe

/-- One iteration of the direct-adjacents loop of `WireGuardPeersFor`:
resolve the vertex, pick endpoints, and compute the allowed sets. -/
def buildPeerEntry (nodes : List MeshNode) (routes : List Route)
    (adj : String → List String) (peerID : String)
    (ourRoutes : List Cidr) (adjacent : String) :
    Except String WireGuardPeer :=
  match graphVertex nodes adjacent with
  | .error e => .error e
  | .ok node =>
    match recursePeers nodes routes adj peerID ourRoutes node with
    | .error e => .error e
    | .ok ipsRoutes =>
      .ok { id := node.id
            publicKey := node.publicKey
            zoneAwarenessId := node.zoneAwarenessID
            primaryEndpoint := primaryEndpointFor node
            wireguardEndpoints := node.wireguardEndpoints
            addressIpv4 := node.privateIPv4.getD ""
            addressIpv6 := node.networkIPv6.getD ""
            allowedIps := ipsRoutes.1
            allowedRoutes := ipsRoutes.2 }

/-- The direct-adjacents loop: abort on the first error, keep order. -/
def collectPeers (f : String → Except String WireGuardPeer) :
    List String → Except String (List WireGuardPeer)
  | [] => .ok []
  | a :: rest =>
    match f a with
    | .error e => .error e
    | .ok p =>
      match collectPeers f rest with
      | .error e => .error e
      | .ok ps => .ok (p :: ps)

/-- `WireGuardPeersFor` over an explicit permitted-adjacency map (the
result of `FilterGraph`): one peer entry per direct adjacent of the
requesting node. -/
def wireGuardPeersFor (nodes : List MeshNode) (routes : List Route)
    (adj : String → List String) (peerID : String) :
    Except String (List WireGuardPeer) :=
  let ourRoutes := routeCidrsOf (getRoutesByNode routes peerID)
  collectPeers (buildPeerEntry nodes routes adj peerID ourRoutes) (adj peerID)

/-! ### The permitted adjacency map

`FilterGraph` and the graph builder live in `pkg/meshdb/networking` and
`pkg/meshdb/peers`, which are not part of the surveyed sources; only
their caller (`WireGuardPeersFor`) and the integration test
(`TestWireGuardPeers`) are.  The adjacency they produce is modelled
below from the spec. -/

/-- `v1.NetworkACL` restricted to the selectors the adjacency filter
uses: name, priority, accept/deny action, source and destination node
selectors (wildcard, explicit IDs, or `group:` references). -/
structure NetworkACL where
  name : String
  priority : Int := 0
  action : Bool := false
  sourceNodes : List String := []
  destinationNodes : List String := []
  deriving DecidableEq, Repr

/-- The replicated state the peer-resolution read path consumes. -/
structure PeersState where
  nodes : List MeshNode
  edges : List (String × String) := []
  routes : List Route := []
  acls : List NetworkACL := []
  groups : List (String × List String) := []

/-- Modelled from the spec: a node selector of an ACL matches a node by
the explicit wildcard, an explicit node-ID entry, or a `group:`
reference resolved through Group membership (spec section 4.2). -/
def selectorMatches (groups : List (String × List String))
    (sel : List String) (nodeID : String) : Bool :=
  sel.any fun s =>
    s == "*" || s == nodeID ||
      (s.startsWith "group:" &&
        (groups.any fun g => ("group:" ++ g.1) == s && g.2.contains nodeID))

/-- Modelled from the spec: the ACL decision for a candidate
`(source, target)` pair — the matching rule with the highest priority
determines Accept or Deny, and the pair is denied when no rule matches
(spec section 4.2). -/
def aclPermits (acls : List NetworkACL)
    (groups : List (String × List String)) (src dst : String) : Bool :=
  let matching := acls.filter fun a =>
    selectorMatches groups a.sourceNodes src &&
      selectorMatches groups a.destinationNodes dst
  match matching.foldl
      (fun best a =>
        match best with
        | none => some a
        | some b => if a.priority > b.priority then some a else some b)
      none with
  | some a => a.action
  | none => false

/-- Modelled from the spec: `FilterGraph` — the permitted adjacency map,
missing from the surveyed sources (`pkg/meshdb/networking`).  Per node,
the other nodes connected to it by an edge whose pair the ACLs permit.
Adjacency from a single stored edge is symmetric, as pinned by the
in-repo test `TestWireGuardPeers` (a lone `peer1 -> peer2` edge makes
each peer resolve the other); a node is never its own neighbour, per
the spec contract that the resolved peers of a node never include the
node itself and the data model of an edge as an adjacency between two
nodes. -/
def filterAdjacency (st : PeersState) : String → List String := fun u =>
  (st.nodes.map (fun n => n.id)).filter fun v =>
    v != u && (st.edges.contains (u, v) || st.edges.contains (v, u)) &&
      aclPermits st.acls st.groups u v

/-- The full read path of `WireGuardPeersFor` over a replicated state:
filter the graph, then resolve peers. -/
def wireGuardPeersForState (st : PeersState) (peerID : String) :
    Except String (List WireGuardPeer) :=
  wireGuardPeersFor st.nodes st.routes (filterAdjacency st) peerID

/-- The resolved entry a node's view holds for one peer ID. -/
def peerEntryFor (st : PeersState) (peerID pid : String) :
    Option WireGuardPeer :=
  match wireGuardPeersForState st peerID with
  | .error _ => none
  | .ok out => out.find? (fun p => p.id == pid)

/-- The chain scenario of `TestWireGuardPeers` and the spec: nodes A, B,
C joined by edges A→B and B→C under an allow-all ACL, no routes. -/
def chainState : PeersState :=
  { nodes := [
      { id := "A", privateIPv4 := some "172.16.0.1/32",
        networkIPv6 := some "2001:db8::1/128" },
      { id := "B", privateIPv4 := some "172.16.0.2/32",
        networkIPv6 := some "2001:db8::2/128" },
      { id := "C", privateIPv4 := some "172.16.0.3/32",
        networkIPv6 := some "2001:db8::3/128" }],
    edges := [("A", "B"), ("B", "C")],
    acls := [{ name := "allow-all", action := true,
               sourceNodes := ["*"], destinationNodes := ["*"] }] }

/-- The entry A resolves for B in the chain scenario. -/
def chainPeerBforA : WireGuardPeer :=
  { id := "B", publicKey := "", zoneAwarenessId := "",
    primaryEndpoint := "", wireguardEndpoints := [],
    addressIpv4 := "172.16.0.2/32", addressIpv6 := "2001:db8::2/128",
    allowedIps := ["172.16.0.2/32", "2001:db8::2/128",
                   "172.16.0.3/32", "2001:db8::3/128"],
    allowedRoutes := [] }

/-- The entry C resolves for B in the chain scenario. -/
def chainPeerBforC : WireGuardPeer :=
  { id := "B", publicKey := "", zoneAwarenessId := "",
    primaryEndpoint := "", wireguardEndpoints := [],
    addressIpv4 := "172.16.0.2/32", addressIpv6 := "2001:db8::2/128",
    allowedIps := ["172.16.0.2/32", "2001:db8::2/128",
                   "172.16.0.1/32", "2001:db8::1/128"],
    allowedRoutes := [] }

/-! ## Networking repository: `meshdb/networking` (Network ACLs, Routes) -/

/-- `BootstrapNodesNetworkACLName`: the immutable system ACL. -/
def BootstrapNodesNetworkACLName : String := "bootstrap-nodes"

/-- `IsSystemNetworkACL` from `meshdb/networking`. -/
def IsSystemNetworkACL (name : String) : Bool :=
  name == BootstrapNodesNetworkACLName

/-- Generic upsert into an association list, modelling the SQL
`INSERT ... ON CONFLICT` queries the repositories issue: the first
entry under the key is replaced, otherwise a new row is appended. -/
def upsert {α : Type} (db : List (String × α)) (k : String) (v : α) :
    List (String × α) :=
  match db with
  | [] => [(k, v)]
  | kv :: rest => if kv.1 = k then (k, v) :: rest else kv :: upsert rest k v

/-- `v1.NetworkACL` as consumed by `PutNetworkACL`.  The `action` field
carries the proto enum tag; its numeric values are not interpreted by
the repository. -/
structure V1NetworkACL where
  name : String
  priority : Int := 0
  action : Nat := 0
  sourceNodes : List String := []
  destinationNodes : List String := []
  sourceCidrs : List String := []
  destinationCidrs : List String := []
  protocols : List String := []
  ports : List Nat := []
  deriving DecidableEq, Repr

/-- A `raftdb.NetworkAcl` row as built by `PutNetworkACL`: list-valued
selectors are stored comma-joined in nullable columns.  The
`created_at`/`updated_at` wall-clock columns are outside the model. -/
structure DbNetworkACL where
  name : String
  priority : Int
  action : Nat
  srcNodeIds : Option String
  dstNodeIds : Option String
  srcCidrs : Option String
  dstCidrs : Option String
  protocols : Option String
  ports : Option String
  deriving DecidableEq, Repr

/-- The `sql.NullString` built from a list selector: null when the list
is empty, the comma-join otherwise. -/
def nullJoin (l : List String) : Option String :=
  if l.length > 0 then some (String.intercalate "," l) else none

/-- `PutNetworkACL` from `meshdb/networking`: reject the system ACL,
otherwise upsert the row keyed by name. -/
def putNetworkACL (db : List (String × DbNetworkACL)) (acl : V1NetworkACL) :
    Except String Unit × List (String × DbNetworkACL) :=
  if IsSystemNetworkACL acl.name then
    (.error ("cannot update system network acl " ++ acl.name), db)
  else
    let params : DbNetworkACL :=
      { name := acl.name
        priority := acl.priority
        action := acl.action
        srcNodeIds := nullJoin acl.sourceNodes
        dstNodeIds := nullJoin acl.destinationNodes
        srcCidrs := nullJoin acl.sourceCidrs
        dstCidrs := nullJoin acl.destinationCidrs
        protocols := nullJoin acl.protocols
        ports := nullJoin (acl.ports.map toString) }
    (.ok (), upsert db acl.name params)

/-- `DeleteNetworkACL` from `meshdb/networking`: reject the system ACL,
otherwise delete the row (deleting an absent row succeeds). -/
def deleteNetworkACL (db : List (String × DbNetworkACL)) (name : String) :
    Except String Unit × List (String × DbNetworkACL) :=
  if IsSystemNetworkACL name then
    (.error ("cannot delete system network acl " ++ name), db)
  else
    (.ok (), db.filter (fun kv => kv.1 ≠ name))

/-- `InvalidIDChars` from `pkg/storage/types/mesh_nodes.go` (the
apostrophe is written by code point). -/
def InvalidIDChars : List Char :=
  ['/', '\\', ':', '*', '?', '"', Char.ofNat 39, '<', '>', '|', ',']

/-- `IsValidID` from `pkg/storage/types/mesh_nodes.go`: non-empty and
free of the forbidden characters (Lean strings are always valid
UTF-8, so the `ToValidUTF8` round-trip check always passes). -/
def IsValidID (id : String) : Bool :=
  if id.length = 0 then false
  else id.data.all (fun c => !InvalidIDChars.contains c)

/-- The stored network routes, keyed by route name.  The comma-joined
`nodes`/`dst_cidrs` SQL columns round-trip exactly through
`strings.Join`/`strings.Split` for the node names `IsValidID` admits
(the comma is a forbidden character), so rows are modelled at the
list level. -/
def getRoute (db : List (String × Route)) (name : String) :
    Except String Route :=
  match db.find? (fun kv => kv.1 == name) with
  | none => .error "route not found"
  | some kv => .ok kv.2

/-- `PutRoute`: upsert keyed by the route name. -/
def putRoute (db : List (String × Route)) (route : Route) :
    Except String Unit × List (String × Route) :=
  (.ok (), upsert db route.name route)

/-- `AppendNodeToRoute` from `meshdb/networking`: read the route, do
nothing when the node is already listed, otherwise append and write
back. -/
def appendNodeToRoute (db : List (String × Route))
    (routeName nodeName : String) :
    Except String Unit × List (String × Route) :=
  match getRoute db routeName with
  | .error e => (.error ("get route: " ++ e), db)
  | .ok route =>
    if route.nodes.contains nodeName then
      (.ok (), db)
    else
      putRoute db { route with nodes := route.nodes ++ [nodeName] }

/-! ## Bootstrap sequencer: `Bootstrap` (storage package) -/

/-- Defaults from the bootstrap options. -/
def DefaultMeshDomain : String := "webmesh.internal"

/-- Default IPv4 network for the mesh. -/
def DefaultIPv4Network : String := "172.16.0.0/12"

/-- Default network policy. -/
def DefaultNetworkPolicy : String := "accept"

/-- Default mesh admin node ID. -/
def DefaultMeshAdmin : String := "admin"

/-- Modelled from the spec: the role/group/binding name constants of the
RBAC package, which is not among the surveyed sources; only the names'
identities matter to the bootstrap flow. -/
def MeshAdminRole : String := "mesh-admin"

/-- Modelled from the spec: the admin role-binding name (RBAC package
not in the surveyed sources). -/
def MeshAdminRoleBinding : String := "mesh-admin"

/-- Modelled from the spec: the voters role name. -/
def VotersRole : String := "mesh-voters"

/-- Modelled from the spec: the voters group name. -/
def VotersGroup : String := "voters"

/-- Modelled from the spec: the bootstrap voters role-binding name. -/
def BootstrapVotersRoleBinding : String := "bootstrap-voters"

/-- The rule resources used by bootstrap (`v1.RuleResource`). -/
inductive RuleResource where
  | all
  | votes
  deriving DecidableEq, Repr

/-- The rule verbs used by bootstrap (`v1.RuleVerb`). -/
inductive RuleVerb where
  | all
  | put
  deriving DecidableEq, Repr

/-- `v1.SubjectType`. -/
inductive SubjectType where
  | node
  | user
  | group
  deriving DecidableEq, Repr

/-- `v1.Rule`. -/
structure Rule where
  resources : List RuleResource
  verbs : List RuleVerb
  deriving DecidableEq, Repr

/-- `v1.Subject`. -/
structure SubjectRec where
  subjectType : SubjectType
  name : String
  deriving DecidableEq, Repr

/-- `v1.Role`. -/
structure RoleRec where
  name : String
  rules : List Rule
  deriving DecidableEq, Repr

/-- `v1.RoleBinding`. -/
structure RoleBindingRec where
  name : String
  role : String
  subjects : List SubjectRec
  deriving DecidableEq, Repr

/-- `v1.Group`. -/
structure GroupRec where
  name : String
  subjects : List SubjectRec
  deriving DecidableEq, Repr

/-- The mesh-state keys bootstrap reads and writes (`none` models a
key-not-found read). -/
structure MeshStateRec where
  meshDomain : Option String := none
  networkV4 : Option Cidr := none
  networkV6 : Option Cidr := none
  deriving DecidableEq, Repr

/-- The slice of `MeshDB` that bootstrap touches: mesh state, the RBAC
sub-stores with the enabled flag, and the network-ACL sub-store.  The
storage backend's writes are modelled as always succeeding. -/
structure MeshDB where
  meshState : MeshStateRec := {}
  roles : List (String × RoleRec) := []
  rolebindings : List (String × RoleBindingRec) := []
  groups : List (String × GroupRec) := []
  rbacEnabled : Bool := true
  acls : List (String × V1NetworkACL) := []
  deriving DecidableEq, Repr

/-- `BootstrapOptions`. -/
structure BootstrapOptions where
  meshDomain : String := ""
  ipv4Network : String := ""
  admin : String := ""
  defaultNetworkPolicy : String := ""
  bootstrapNodes : List String := []
  voters : List String := []
  disableRBAC : Bool := false
  deriving DecidableEq, Repr

/-- `BootstrapResults`. -/
structure BootstrapResults where
  networkV4 : Cidr := ""
  networkV6 : Cidr := ""
  meshDomain : String := ""
  deriving DecidableEq, Repr

/-- `errors.ErrAlreadyBootstrapped`. -/
def errAlreadyBootstrapped : String := "already bootstrapped"

/-- `Bootstrap` from the storage package.  `netutil.GenerateULA` (not
among the surveyed sources) draws a random unique-local IPv6 prefix;
it is modelled as the explicit oracle argument `ula`.  `ParsePrefix`
on the caller-supplied IPv4 network is modelled as the identity on the
already-parsed prefix.  The function returns the results paired with
the optional error, and the resulting database. -/
def bootstrap (ula : Cidr) (db : MeshDB) (opts : BootstrapOptions) :
    (BootstrapResults × Option String) × MeshDB :=
  -- option defaulting (the Go code overwrites the empty fields in place;
  -- the defaulted values are bound as scalars here)
  let ipv4Network := if opts.ipv4Network = "" then DefaultIPv4Network
    else opts.ipv4Network
  let meshDomain := if opts.meshDomain = "" then DefaultMeshDomain
    else opts.meshDomain
  let results : BootstrapResults := { meshDomain := meshDomain }
  let admin := if opts.admin = "" then DefaultMeshAdmin else opts.admin
  let networkPolicy := if opts.defaultNetworkPolicy = "" then
    DefaultNetworkPolicy else opts.defaultNetworkPolicy
  match db.meshState.meshDomain with
  | some d =>
    -- data already exists: read the stored prefixes and domain back
    match db.meshState.networkV4 with
    | none => ((results, some "get IPv4 prefix: key not found"), db)
    | some v4 =>
      match db.meshState.networkV6 with
      | none =>
        (({ results with networkV4 := v4 },
          some "get IPv6 prefix: key not found"), db)
      | some v6 =>
        (({ networkV4 := v4, networkV6 := v6, meshDomain := d },
          some errAlreadyBootstrapped), db)
  | none =>
    let results := { results with networkV4 := ipv4Network, networkV6 := ula }
    let db := { db with meshState := { db.meshState with networkV6 := some ula } }
    let db := { db with meshState :=
      { db.meshState with networkV4 := some ipv4Network } }
    let db := { db with meshState :=
      { db.meshState with meshDomain := some meshDomain } }
    -- RBAC seeding
    let adminRole : RoleRec :=
      { name := MeshAdminRole,
        rules := [{ resources := [RuleResource.all], verbs := [RuleVerb.all] }] }
    let adminBinding : RoleBindingRec :=
      { name := MeshAdminRole, role := MeshAdminRoleBinding,
        subjects := [{ subjectType := .node, name := admin },
                     { subjectType := .user, name := admin }] }
    let votersRoleRec : RoleRec :=
      { name := VotersRole,
        rules := [{ resources := [RuleResource.votes], verbs := [RuleVerb.put] }] }
    let votersGroupRec : GroupRec :=
      { name := VotersGroup,
        subjects :=
          ({ subjectType := .node, name := admin } :: []) ++
            opts.bootstrapNodes.map (fun id => { subjectType := .node, name := id }) ++
            opts.voters.map (fun voter => { subjectType := .node, name := voter }) }
    let votersBinding : RoleBindingRec :=
      { name := BootstrapVotersRoleBinding, role := VotersRole,
        subjects := [{ subjectType := .group, name := VotersGroup }] }
    let db := { db with roles := upsert db.roles MeshAdminRole adminRole }
    let db := { db with rolebindings := upsert db.rolebindings MeshAdminRole adminBinding }
    let db := { db with roles := upsert db.roles VotersRole votersRoleRec }
    let db := { db with groups := upsert db.groups VotersGroup votersGroupRec }
    let bvName := BootstrapVotersRoleBinding
    let db := { db with rolebindings := upsert db.rolebindings bvName votersBinding }
    let db := { db with rbacEnabled :=
      if opts.disableRBAC then false else db.rbacEnabled }
    -- networking seeding: the storage-level ACL put used here has no
    -- system-name guard (bootstrap itself creates the system ACL)
    let bootstrapACL : V1NetworkACL :=
      { name := BootstrapNodesNetworkACLName, priority := 2147483647,
        sourceNodes := ["group:" ++ VotersGroup],
        destinationNodes := ["group:" ++ VotersGroup], action := 1 }
    let defaultAcceptACL : V1NetworkACL :=
      { name := "default-accept", priority := -2147483648,
        sourceNodes := ["*"], destinationNodes := ["*"],
        sourceCidrs := ["*"], destinationCidrs := ["*"], action := 1 }
    let sysName := BootstrapNodesNetworkACLName
    let db := { db with acls := upsert db.acls sysName bootstrapACL }
    let aclsAfterPolicy := if networkPolicy = "accept" then
      upsert db.acls "default-accept" defaultAcceptACL else db.acls
    let db := { db with acls := aclsAfterPolicy }
    ((results, none), db)

end Webmesh

open Webmesh

/-- C1: a stale entry (term below the checkpoint term, or equal term with
index at most the checkpoint index) yields a success response with empty
error detail, leaves the sub-store data untouched, and leaves the
persisted checkpoint unchanged. -/
theorem C1_stale_replay_guard {B C D : Type} (env : FSMEnv B C D)
    (fmt : RaftLogFormat) (s : StoreState D) (l : RaftLog B)
    (ct ci : Nat) (hcp : s.checkpoint = some (ct, ci))
    (hstale : l.term < ct ∨ (l.term = ct ∧ l.index ≤ ci)) :
    (storeApply env fmt s l).1.error = "" ∧
    (storeApply env fmt s l).2.data = s.data ∧
    (storeApply env fmt s l).2.checkpoint = s.checkpoint := by
  unfold storeApply
  rcases hstale with hlt | ⟨heq, hle⟩
  · simp [hcp, getDBTermAndIndex, hlt]
  · simp [hcp, getDBTermAndIndex, heq, hle]

/-- Reading back a present checkpoint row. -/
theorem getDBTermAndIndex_some (p : Nat × Nat) :
    getDBTermAndIndex (some p) = p := rfl

/-- One `Apply` step never decreases the persisted checkpoint pair:
shared helper for the sequence statement. -/
theorem cpPair_mono_step {B C D : Type} (env : FSMEnv B C D)
    (fmt : RaftLogFormat) (s : StoreState D) (l : RaftLog B) :
    (cpPair s).1 ≤ (cpPair ((storeApply env fmt s l).2)).1 ∧
    (cpPair s).2 ≤ (cpPair ((storeApply env fmt s l).2)).2 := by
  unfold storeApply
  by_cases h1 : l.term < (getDBTermAndIndex s.checkpoint).1
  · simp [h1, cpPair]
  · by_cases h2 : l.index ≤ (getDBTermAndIndex s.checkpoint).2
    · simp [h1, h2, cpPair]
    · have hne : (getDBTermAndIndex s.checkpoint).2 ≠ l.index := by omega
      by_cases h3 : l.logType ≠ RaftLogType.command
      · simp [h1, h2, h3, hne, cpPair, getDBTermAndIndex_some]
        omega
      · cases hdec : decodeLogEntry env fmt l.data with
        | error e =>
          simp [h1, h2, h3, hne, hdec, cpPair, getDBTermAndIndex_some]
          omega
        | ok cmd =>
          simp [h1, h2, h3, hne, hdec, cpPair, getDBTermAndIndex_some]
          omega

/-- C2: across any sequence of `Apply` calls the persisted checkpoint
`(term, index)` never decreases (componentwise), and an entry that is
successfully applied as a mutating command strictly increases the
checkpoint index. -/
theorem C2_monotonic_checkpoint {B C D : Type} (env : FSMEnv B C D)
    (fmt : RaftLogFormat) (s : StoreState D) (logs : List (RaftLog B)) :
    ((cpPair s).1 ≤ (cpPair (applyAll env fmt s logs)).1 ∧
      (cpPair s).2 ≤ (cpPair (applyAll env fmt s logs)).2) ∧
    (∀ l : RaftLog B, entryApplied env fmt s l = true →
      (cpPair s).2 < (cpPair ((storeApply env fmt s l).2)).2) := by
  constructor
  · induction logs generalizing s with
    | nil => exact ⟨le_refl _, le_refl _⟩
    | cons l rest ih =>
      have hstep := cpPair_mono_step env fmt s l
      have hrest := ih ((storeApply env fmt s l).2)
      exact ⟨le_trans hstep.1 hrest.1, le_trans hstep.2 hrest.2⟩
  · intro l happ
    unfold entryApplied at happ
    simp only [Bool.and_eq_true, Bool.not_eq_true', decide_eq_false_iff_not,
      decide_eq_true_eq] at happ
    obtain ⟨⟨⟨h1, h2⟩, h3⟩, _⟩ := happ
    unfold storeApply
    have h2' : ¬ l.index ≤ (getDBTermAndIndex s.checkpoint).2 := by omega
    have hne : (getDBTermAndIndex s.checkpoint).2 ≠ l.index := by omega
    by_cases h4 : l.logType ≠ RaftLogType.command
    · exact absurd h3 (by simpa using h4)
    · cases hdec : decodeLogEntry env fmt l.data with
      | error e =>
        simp [h1, h2', h4, hne, hdec, cpPair, getDBTermAndIndex_some]
        omega
      | ok cmd =>
        simp [h1, h2', h4, hne, hdec, cpPair, getDBTermAndIndex_some]
        omega

/-- Witness for C2: a concrete store, batch, and applied entry. -/
theorem C2_monotonic_checkpoint_witness :
    let env : FSMEnv Unit Unit Unit :=
      { decodeJSON := fun _ => .ok (), decodeProto := fun _ => .ok (),
        snappyDecode := fun _ => .ok (),
        applyInner := fun _ _ d => (d, { error := "" }) }
    let s : StoreState Unit := { checkpoint := some (2, 3), data := (), raftIndex := 0 }
    let l : RaftLog Unit := { index := 5, term := 2, logType := .command, data := () }
    ((cpPair s).1 ≤ (cpPair (applyAll env .json s [l])).1 ∧
      (cpPair s).2 ≤ (cpPair (applyAll env .json s [l])).2) ∧
    (cpPair s).2 < (cpPair ((storeApply env .json s l).2)).2 := by
  intro env s l
  have h := C2_monotonic_checkpoint env .json s [l]
  exact ⟨h.1, h.2 l (by decide)⟩

/-- C3 counterexample: a command-type entry whose payload is undecodable
but which is stale (index at or below the checkpoint index) is answered
with a success response whose error detail is empty — the decode failure
is not surfaced, contradicting the claim as stated. -/
theorem C3_undecodable_cex :
    let env : FSMEnv Bool Unit Unit :=
      { decodeJSON := fun b => if b then .ok () else .error "proto: cannot parse",
        decodeProto := fun _ => .error "proto: cannot parse",
        snappyDecode := fun _ => .error "snappy: corrupt input",
        applyInner := fun _ _ d => (d, { error := "" }) }
    let s : StoreState Unit := { checkpoint := some (5, 5), data := (), raftIndex := 0 }
    let l : RaftLog Bool := { index := 3, term := 5, logType := .command, data := false }
    l.logType = RaftLogType.command ∧
    decodeLogEntry env .json l.data = .error "proto: cannot parse" ∧
    (storeApply env .json s l).1.error = "" := by
  intro env s l
  refine ⟨rfl, rfl, ?_⟩
  rfl

/-- C3 (amended): a command-type entry that passes the stale-replay guard
and whose payload cannot be decoded under the configured encoding is
answered with a non-empty error detail, and the sub-store data is left
unmodified. -/
theorem C3_undecodable_surfaced {B C D : Type} (env : FSMEnv B C D)
    (fmt : RaftLogFormat) (s : StoreState D) (l : RaftLog B) (e : String)
    (hcmd : l.logType = RaftLogType.command)
    (hterm : ¬ l.term < (getDBTermAndIndex s.checkpoint).1)
    (hidx : (getDBTermAndIndex s.checkpoint).2 < l.index)
    (hdec : decodeLogEntry env fmt l.data = .error e) :
    (storeApply env fmt s l).1.error ≠ "" ∧
    (storeApply env fmt s l).2.data = s.data := by
  unfold storeApply
  have h2 : ¬ l.index ≤ (getDBTermAndIndex s.checkpoint).2 := by omega
  have h4 : ¬ l.logType ≠ RaftLogType.command := by simp [hcmd]
  simp only [hterm, h2, h4, hdec, if_false]
  refine ⟨?_, trivial⟩
  intro h
  have hd := congrArg String.data h
  rw [String.data_append] at hd
  have hnil := (List.append_eq_nil.mp hd).1
  exact absurd hnil (by decide)

/-- Witness for the amended C3 at a concrete undecodable entry. -/
theorem C3_undecodable_surfaced_witness :
    let env : FSMEnv Bool Unit Unit :=
      { decodeJSON := fun b => if b then .ok () else .error "proto: cannot parse",
        decodeProto := fun _ => .error "proto: cannot parse",
        snappyDecode := fun _ => .error "snappy: corrupt input",
        applyInner := fun _ _ d => (d, { error := "" }) }
    let s : StoreState Unit := { checkpoint := some (5, 5), data := (), raftIndex := 0 }
    let l : RaftLog Bool := { index := 9, term := 5, logType := .command, data := false }
    (storeApply env .json s l).1.error ≠ "" ∧
    (storeApply env .json s l).2.data = s.data := by
  intro env s l
  exact C3_undecodable_surfaced env .json s l "proto: cannot parse"
    rfl (by decide) (by decide) rfl

/-- Witness for C1 at a concrete store and entry. -/
theorem C1_stale_replay_guard_witness :
    let env : FSMEnv Unit Unit Unit :=
      { decodeJSON := fun _ => .ok (), decodeProto := fun _ => .ok (),
        snappyDecode := fun _ => .ok (),
        applyInner := fun _ _ d => (d, { error := "" }) }
    let s : StoreState Unit := { checkpoint := some (4, 7), data := (), raftIndex := 0 }
    let l : RaftLog Unit := { index := 6, term := 4, logType := .command, data := () }
    (storeApply env .json s l).1.error = "" ∧
    (storeApply env .json s l).2.data = s.data ∧
    (storeApply env .json s l).2.checkpoint = s.checkpoint := by
  intro env s l
  exact C1_stale_replay_guard env .json s l 4 7 rfl (Or.inr ⟨rfl, by decide⟩)

/-- A peer produced by the direct-adjacents loop comes from some
adjacent in the traversed list. -/
theorem collectPeers_mem (f : String → Except String WireGuardPeer)
    (l : List String) (out : List WireGuardPeer)
    (h : collectPeers f l = .ok out) :
    ∀ p ∈ out, ∃ a ∈ l, f a = .ok p := by
  induction l generalizing out with
  | nil =>
    simp only [collectPeers, Except.ok.injEq] at h
    subst h
    intro p hp
    exact absurd hp (List.not_mem_nil p)
  | cons a rest ih =>
    intro p hp
    simp only [collectPeers] at h
    cases hfa : f a with
    | error e => rw [hfa] at h; exact absurd h (by simp)
    | ok p0 =>
      rw [hfa] at h
      cases hrest : collectPeers f rest with
      | error e => rw [hrest] at h; exact absurd h (by simp)
      | ok ps =>
        rw [hrest] at h
        simp only [Except.ok.injEq] at h
        subst h
        rcases List.mem_cons.mp hp with hpe | hpm
        · exact ⟨a, List.mem_cons_self a rest, hpe ▸ hfa⟩
        · obtain ⟨b, hb, hfb⟩ := ih ps hrest p hpm
          exact ⟨b, List.mem_cons_of_mem a hb, hfb⟩

/-- A successful vertex lookup returns the node carrying the looked-up
ID, and that node belongs to the vertex list. -/
theorem graphVertex_ok (nodes : List MeshNode) (id : String)
    (n : MeshNode) (h : graphVertex nodes id = .ok n) :
    n.id = id ∧ n ∈ nodes := by
  unfold graphVertex at h
  cases hf : nodes.find? (fun m => m.id == id) with
  | none => rw [hf] at h; exact absurd h (by simp)
  | some m =>
    rw [hf] at h
    simp only [Except.ok.injEq] at h
    subst h
    exact ⟨by simpa using List.find?_some hf, List.mem_of_find?_eq_some hf⟩

/-- A successfully built peer entry carries the adjacent's ID. -/
theorem buildPeerEntry_id (nodes : List MeshNode) (routes : List Route)
    (adj : String → List String) (peerID : String) (ourRoutes : List Cidr)
    (adjacent : String) (p : WireGuardPeer)
    (h : buildPeerEntry nodes routes adj peerID ourRoutes adjacent = .ok p) :
    p.id = adjacent := by
  unfold buildPeerEntry at h
  split at h
  · exact absurd h (by simp)
  · rename_i node hv
    split at h
    · exact absurd h (by simp)
    · rename_i pr hr
      simp only [Except.ok.injEq] at h
      subst h
      exact (graphVertex_ok nodes adjacent node hv).1

/-- Members of the modelled permitted adjacency of a node are never the
node itself. -/
theorem mem_filterAdjacency_ne (st : PeersState) (u v : String)
    (h : v ∈ filterAdjacency st u) : v ≠ u := by
  unfold filterAdjacency at h
  have hp := (List.mem_filter.mp h).2
  simp only [Bool.and_eq_true, bne_iff_ne] at hp
  exact hp.1.1

/-- C4: no self-peering — the peer list `WireGuardPeersFor` resolves for
a node never contains an entry whose ID is that node itself. -/
theorem C4_no_self_peering (st : PeersState) (peerID : String)
    (out : List WireGuardPeer)
    (h : wireGuardPeersForState st peerID = .ok out) :
    ∀ p ∈ out, p.id ≠ peerID := by
  intro p hp
  unfold wireGuardPeersForState wireGuardPeersFor at h
  obtain ⟨a, ha, hfa⟩ :=
    collectPeers_mem _ (filterAdjacency st peerID) out h p hp
  have hid := buildPeerEntry_id _ _ _ _ _ _ _ hfa
  rw [hid]
  exact mem_filterAdjacency_ne st peerID a ha

/-- Witness for C4 on the concrete chain scenario. -/
theorem C4_no_self_peering_witness :
    wireGuardPeersForState chainState "A" = .ok [chainPeerBforA] ∧
      ∀ p ∈ [chainPeerBforA], p.id ≠ "A" := by
  refine ⟨rfl, C4_no_self_peering chainState "A" [chainPeerBforA] rfl⟩

/-- C5: in the A—B—C chain under the allow-all ACL, A's view lists B as
a direct peer whose allowed addresses include B's and C's private
addresses, and C's view symmetrically lists B with B's and A's. -/
theorem C5_transitive_relay :
    (∃ p, peerEntryFor chainState "A" "B" = some p ∧
      "172.16.0.2/32" ∈ p.allowedIps ∧ "2001:db8::2/128" ∈ p.allowedIps ∧
      "172.16.0.3/32" ∈ p.allowedIps ∧ "2001:db8::3/128" ∈ p.allowedIps) ∧
    (∃ p, peerEntryFor chainState "C" "B" = some p ∧
      "172.16.0.2/32" ∈ p.allowedIps ∧ "2001:db8::2/128" ∈ p.allowedIps ∧
      "172.16.0.1/32" ∈ p.allowedIps ∧ "2001:db8::1/128" ∈ p.allowedIps) := by
  constructor
  · exact ⟨chainPeerBforA, by decide, by decide, by decide, by decide, by decide⟩
  · exact ⟨chainPeerBforC, by decide, by decide, by decide, by decide, by decide⟩

/-- `contains` agrees with list membership. -/
theorem contains_iff (l : List Cidr) (x : Cidr) :
    contains l x = true ↔ x ∈ l := by
  induction l with
  | nil => simp [contains]
  | cons y rest ih =>
    by_cases h : y = x
    · simp [contains, h]
    · simp [contains, h, ih, List.mem_cons]
      intro he
      exact absurd he.symm h

/-- Unfolding the guarded merge on an empty list. -/
theorem appendMissing_nil (acc : List Cidr) : appendMissing acc [] = acc := rfl

/-- Unfolding the guarded merge on a cons. -/
theorem appendMissing_cons (acc : List Cidr) (y : Cidr) (rest : List Cidr) :
    appendMissing acc (y :: rest) =
      appendMissing (if contains acc y then acc else acc ++ [y]) rest := rfl

/-- The guarded merge only grows the accumulator. -/
theorem mem_appendMissing_left (l : List Cidr) (acc : List Cidr) (x : Cidr)
    (hx : x ∈ acc) : x ∈ appendMissing acc l := by
  induction l generalizing acc with
  | nil => simpa [appendMissing_nil] using hx
  | cons y rest ih =>
    rw [appendMissing_cons]
    by_cases h : contains acc y
    · simpa [h] using ih acc hx
    · exact (by simpa [h] using ih (acc ++ [y]) (List.mem_append_left _ hx))

/-- Every merged element ends up in the result. -/
theorem mem_appendMissing_right (l : List Cidr) (acc : List Cidr) (x : Cidr)
    (hx : x ∈ l) : x ∈ appendMissing acc l := by
  induction l generalizing acc with
  | nil => exact absurd hx (List.not_mem_nil x)
  | cons y rest ih =>
    rw [appendMissing_cons]
    rcases List.mem_cons.mp hx with he | hm
    · subst he
      by_cases h : contains acc x
      · simpa [h] using mem_appendMissing_left rest acc x ((contains_iff acc x).mp h)
      · have hx2 : x ∈ acc ++ [x] :=
          List.mem_append_right _ (List.mem_singleton.mpr rfl)
        simpa [h] using mem_appendMissing_left rest (acc ++ [x]) x hx2
    · by_cases h : contains acc y
      · simpa [h] using ih _ hm
      · simpa [h] using ih _ hm

/-- Elements of the merged result come from one of the two inputs. -/
theorem mem_appendMissing (l : List Cidr) (acc : List Cidr) (x : Cidr)
    (hx : x ∈ appendMissing acc l) : x ∈ acc ∨ x ∈ l := by
  induction l generalizing acc with
  | nil => exact Or.inl (by simpa [appendMissing_nil] using hx)
  | cons y rest ih =>
    rw [appendMissing_cons] at hx
    by_cases h : contains acc y
    · rcases ih _ (by simpa [h] using hx) with ha | hr
      · exact Or.inl ha
      · exact Or.inr (List.mem_cons_of_mem y hr)
    · rcases ih _ (by simpa [h] using hx) with ha | hr
      · rcases List.mem_append.mp ha with ha' | hy
        · exact Or.inl ha'
        · exact Or.inr (List.mem_cons.mpr (Or.inl (List.mem_singleton.mp hy)))
      · exact Or.inr (List.mem_cons_of_mem y hr)

/-- The guarded merge preserves duplicate-freedom. -/
theorem nodup_appendMissing (l : List Cidr) (acc : List Cidr)
    (h : acc.Nodup) : (appendMissing acc l).Nodup := by
  induction l generalizing acc with
  | nil => simpa [appendMissing_nil] using h
  | cons y rest ih =>
    rw [appendMissing_cons]
    by_cases hc : contains acc y
    · simpa [hc] using ih acc h
    · have hy : y ∉ acc := fun hm => hc ((contains_iff acc y).mpr hm)
      have : (acc ++ [y]).Nodup := by
        rw [List.nodup_append]
        exact ⟨h, List.nodup_singleton y,
          fun a ha hb => hy ((List.mem_singleton.mp hb) ▸ ha)⟩
      simpa [hc] using ih (acc ++ [y]) this

/-- Unfolding the guarded CIDR fold on an empty list. -/
theorem appendCidrList_nil (acc tr : List Cidr) :
    appendCidrList acc tr [] = acc := rfl

/-- Unfolding the guarded CIDR fold on a cons. -/
theorem appendCidrList_cons (acc tr : List Cidr) (y : Cidr) (rest : List Cidr) :
    appendCidrList acc tr (y :: rest) =
      appendCidrList
        (if contains acc y || contains tr y then acc else acc ++ [y])
        tr rest := rfl

/-- The guarded CIDR fold only grows the accumulator. -/
theorem mem_appendCidrList_left (cidrs : List Cidr) (acc tr : List Cidr)
    (x : Cidr) (hx : x ∈ acc) : x ∈ appendCidrList acc tr cidrs := by
  induction cidrs generalizing acc with
  | nil => simpa [appendCidrList_nil] using hx
  | cons y rest ih =>
    rw [appendCidrList_cons]
    by_cases h : contains acc y || contains tr y
    · simpa [h] using ih acc hx
    · exact (by simpa [h] using ih (acc ++ [y]) (List.mem_append_left _ hx))

/-- A destination CIDR that does not duplicate one of the requesting
node's own routes ends up in the fold result. -/
theorem mem_appendCidrList_of (cidrs : List Cidr) (acc tr : List Cidr)
    (x : Cidr) (hx : x ∈ cidrs) (hnr : x ∉ tr) :
    x ∈ appendCidrList acc tr cidrs := by
  induction cidrs generalizing acc with
  | nil => exact absurd hx (List.not_mem_nil x)
  | cons y rest ih =>
    rw [appendCidrList_cons]
    rcases List.mem_cons.mp hx with he | hm
    · subst he
      have htr : contains tr x = false := by
        rw [Bool.eq_false_iff]
        exact fun hc => hnr ((contains_iff tr x).mp hc)
      by_cases h : contains acc x
      · have hx1 := mem_appendCidrList_left rest acc tr x ((contains_iff acc x).mp h)
        simpa [h, htr] using hx1
      · have hx2 : x ∈ acc ++ [x] :=
          List.mem_append_right _ (List.mem_singleton.mpr rfl)
        have hx3 := mem_appendCidrList_left rest (acc ++ [x]) tr x hx2
        simpa [h, htr] using hx3
    · by_cases h : contains acc y || contains tr y
      · simpa [h] using ih _ hm
      · simpa [h] using ih _ hm

/-- Every element of the fold result is either carried over or is a new
CIDR that does not duplicate a requesting-node route. -/
theorem mem_appendCidrList (cidrs : List Cidr) (acc tr : List Cidr)
    (x : Cidr) (hx : x ∈ appendCidrList acc tr cidrs) :
    x ∈ acc ∨ (x ∈ cidrs ∧ x ∉ tr) := by
  induction cidrs generalizing acc with
  | nil => exact Or.inl (by simpa [appendCidrList_nil] using hx)
  | cons y rest ih =>
    rw [appendCidrList_cons] at hx
    by_cases h : contains acc y || contains tr y
    · rcases ih _ (by simpa [h] using hx) with ha | hr
      · exact Or.inl ha
      · exact Or.inr ⟨List.mem_cons_of_mem y hr.1, hr.2⟩
    · rcases ih _ (by simpa [h] using hx) with ha | hr
      · rcases List.mem_append.mp ha with ha' | hy
        · exact Or.inl ha'
        · have hxy := List.mem_singleton.mp hy
          subst hxy
          have : contains tr x = false := by
            rcases Bool.or_eq_false_iff.mp (Bool.eq_false_iff.mpr h) with ⟨_, h2⟩
            exact h2
          exact Or.inr ⟨List.mem_cons_self x rest,
            fun hm => by
              rw [(contains_iff tr x).mpr hm] at this
              exact absurd this (by decide)⟩
      · exact Or.inr ⟨List.mem_cons_of_mem y hr.1, hr.2⟩

/-- The guarded CIDR fold preserves duplicate-freedom. -/
theorem nodup_appendCidrList (cidrs : List Cidr) (acc tr : List Cidr)
    (h : acc.Nodup) : (appendCidrList acc tr cidrs).Nodup := by
  induction cidrs generalizing acc with
  | nil => simpa [appendCidrList_nil] using h
  | cons y rest ih =>
    rw [appendCidrList_cons]
    by_cases hc : contains acc y || contains tr y
    · simpa [hc] using ih acc h
    · have hacc : contains acc y = false :=
        (Bool.or_eq_false_iff.mp (Bool.eq_false_iff.mpr hc)).1
      have hy : y ∉ acc := fun hm => by
        rw [(contains_iff acc y).mpr hm] at hacc
        exact absurd hacc (by decide)
      have : (acc ++ [y]).Nodup := by
        rw [List.nodup_append]
        exact ⟨h, List.nodup_singleton y,
          fun a ha hb => hy ((List.mem_singleton.mp hb) ▸ ha)⟩
      simpa [hc] using ih (acc ++ [y]) this

/-- The route-level fold only grows the accumulator. -/
theorem mem_appendRouteCidrs_left (rs : List Route) (acc tr : List Cidr)
    (x : Cidr) (hx : x ∈ acc) : x ∈ appendRouteCidrs acc tr rs := by
  induction rs generalizing acc with
  | nil => simpa [appendRouteCidrs] using hx
  | cons r rest ih =>
    have h1 := mem_appendCidrList_left r.dstCidrs acc tr x hx
    simpa [appendRouteCidrs] using ih _ h1

/-- A destination CIDR of an advertised route that does not duplicate a
requesting-node route ends up in the route-level fold result. -/
theorem mem_appendRouteCidrs_of (rs : List Route) (acc tr : List Cidr)
    (r : Route) (hr : r ∈ rs) (x : Cidr) (hx : x ∈ r.dstCidrs)
    (hnr : x ∉ tr) : x ∈ appendRouteCidrs acc tr rs := by
  induction rs generalizing acc with
  | nil => exact absurd hr (List.not_mem_nil r)
  | cons r0 rest ih =>
    rcases List.mem_cons.mp hr with he | hm
    · subst he
      have h1 := mem_appendCidrList_of r.dstCidrs acc tr x hx hnr
      have h2 := mem_appendRouteCidrs_left rest (appendCidrList acc tr r.dstCidrs) tr x h1
      simpa [appendRouteCidrs] using h2
    · have h2 := ih (appendCidrList acc tr r0.dstCidrs) hm
      simpa [appendRouteCidrs] using h2

/-- Elements of the route-level fold are either carried over or do not
duplicate a requesting-node route. -/
theorem mem_appendRouteCidrs (rs : List Route) (acc tr : List Cidr)
    (x : Cidr) (hx : x ∈ appendRouteCidrs acc tr rs) :
    x ∈ acc ∨ x ∉ tr := by
  induction rs generalizing acc with
  | nil => exact Or.inl (by simpa [appendRouteCidrs] using hx)
  | cons r rest ih =>
    have hx' : x ∈ appendRouteCidrs (appendCidrList acc tr r.dstCidrs) tr rest := by
      simpa [appendRouteCidrs] using hx
    rcases ih _ hx' with hin | hout
    · rcases mem_appendCidrList r.dstCidrs acc tr x hin with ha | hb
      · exact Or.inl ha
      · exact Or.inr hb.2
    · exact Or.inr hout

/-- The route-level fold preserves duplicate-freedom. -/
theorem nodup_appendRouteCidrs (rs : List Route) (acc tr : List Cidr)
    (h : acc.Nodup) : (appendRouteCidrs acc tr rs).Nodup := by
  induction rs generalizing acc with
  | nil => simpa [appendRouteCidrs] using h
  | cons r rest ih =>
    have h1 := nodup_appendCidrList r.dstCidrs acc tr h
    simpa [appendRouteCidrs] using ih _ h1

/-- Membership in the flattened destination CIDRs of a route list. -/
theorem mem_routeCidrsOf (rs : List Route) (x : Cidr) :
    x ∈ routeCidrsOf rs ↔ ∃ r ∈ rs, x ∈ r.dstCidrs := by
  have aux : ∀ (rs : List Route) (acc : List Cidr),
      x ∈ rs.foldl (fun acc r => acc ++ r.dstCidrs) acc ↔
        x ∈ acc ∨ ∃ r ∈ rs, x ∈ r.dstCidrs := by
    intro rs
    induction rs with
    | nil => intro acc; simp
    | cons r rest ih =>
      intro acc
      rw [List.foldl_cons, ih (acc ++ r.dstCidrs)]
      simp [List.mem_append, or_assoc]
  rw [routeCidrsOf, aux rs []]
  simp

/-- Where the elements added by `appendAddrs` come from. -/
theorem mem_appendAddrs (acc : List Cidr) (n : MeshNode) (x : Cidr)
    (hx : x ∈ appendAddrs acc n) :
    x ∈ acc ∨ n.privateIPv4 = some x ∨ n.networkIPv6 = some x := by
  unfold appendAddrs at hx
  rcases h4 : n.privateIPv4 with _ | a <;> rcases h6 : n.networkIPv6 with _ | b <;>
    rw [h4, h6] at hx
  · exact Or.inl hx
  · rcases List.mem_append.mp hx with h | h
    · exact Or.inl h
    · exact Or.inr (Or.inr (by rw [List.mem_singleton.mp h]))
  · rcases List.mem_append.mp hx with h | h
    · exact Or.inl h
    · exact Or.inr (Or.inl (by rw [List.mem_singleton.mp h]))
  · rcases List.mem_append.mp hx with h | h
    · rcases List.mem_append.mp h with h' | h'
      · exact Or.inl h'
      · exact Or.inr (Or.inl (by rw [List.mem_singleton.mp h']))
    · exact Or.inr (Or.inr (by rw [List.mem_singleton.mp h]))

/-- A node's own address list is duplicate-free as soon as its two
address families differ (a valid `netip.Prefix` cannot be both). -/
theorem nodup_appendAddrs_nil (n : MeshNode)
    (h : ∀ c, ¬(n.privateIPv4 = some c ∧ n.networkIPv6 = some c)) :
    (appendAddrs [] n).Nodup := by
  unfold appendAddrs
  rcases h4 : n.privateIPv4 with _ | a <;> rcases h6 : n.networkIPv6 with _ | b <;>
    simp
  intro he
  subst he
  exact h a ⟨h4, h6⟩

/-- Invariant of the `recurseEdges` target loop: every collected allowed
IP is either carried in from the accumulator, is the address of some
node of the graph, or does not duplicate a route the requesting node
advertises itself. -/
theorem recurseEdgesLoop_ips_inv (nodes : List MeshNode) (routes : List Route)
    (adj : String → List String) (thisPeer : String) (thisRoutes : List Cidr)
    (enter : MeshNode → List String →
      Except String (List Cidr × List Cidr × List String))
    (henter : ∀ n v ips rts vis, enter n v = .ok (ips, rts, vis) →
      ∀ x ∈ ips,
        (∃ m ∈ nodes, m.privateIPv4 = some x ∨ m.networkIPv6 = some x) ∨
          x ∉ thisRoutes) :
    ∀ (targets : List String), ∀ visited accIPs accRoutes ips rts vis,
      recurseEdgesLoop enter nodes routes adj thisPeer thisRoutes targets
          visited accIPs accRoutes = .ok (ips, rts, vis) →
      ∀ x ∈ ips, x ∈ accIPs ∨
        (∃ m ∈ nodes, m.privateIPv4 = some x ∨ m.networkIPv6 = some x) ∨
          x ∉ thisRoutes := by
  intro targets
  induction targets with
  | nil =>
    intro visited accIPs accRoutes ips rts vis h x hx
    simp only [recurseEdgesLoop, Except.ok.injEq, Prod.mk.injEq] at h
    obtain ⟨h1, -, -⟩ := h
    subst h1
    exact Or.inl hx
  | cons t rest ih =>
    intro visited accIPs accRoutes ips rts vis h x hx
    simp only [recurseEdgesLoop] at h
    split at h
    · exact ih _ _ _ _ _ _ h x hx
    · split at h
      · exact ih _ _ _ _ _ _ h x hx
      · split at h
        · exact ih _ _ _ _ _ _ h x hx
        · split at h
          · exact absurd h (by simp)
          · rename_i targetNode hv
            split at h
            · exact absurd h (by simp)
            · rename_i ips0 ipr0 vis0 heq
              rcases ih _ _ _ _ _ _ h x hx with hin | hgood
              · rcases mem_appendMissing _ _ _ hin with hin2 | hin0
                · by_cases hre : (getRoutesByNode routes targetNode.id).isEmpty = true
                  · rw [if_pos hre] at hin2
                    rcases mem_appendAddrs _ _ _ hin2 with ha | haddr
                    · exact Or.inl ha
                    · refine Or.inr (Or.inl ⟨targetNode, ?_, haddr⟩)
                      exact (graphVertex_ok nodes t targetNode hv).2
                  · rw [if_neg hre] at hin2
                    rcases mem_appendRouteCidrs _ _ _ _ hin2 with hin3 | hout
                    · rcases mem_appendAddrs _ _ _ hin3 with ha | haddr
                      · exact Or.inl ha
                      · refine Or.inr (Or.inl ⟨targetNode, ?_, haddr⟩)
                        exact (graphVertex_ok nodes t targetNode hv).2
                    · exact Or.inr (Or.inr hout)
                · exact Or.inr (henter _ _ _ _ _ heq x hin0)
              · exact Or.inr hgood

/-- The same invariant for `recurseEdges` at any fuel: collected allowed
IPs are node addresses or do not duplicate requesting-node routes. -/
theorem recurseEdges_ips_inv (nodes : List MeshNode) (routes : List Route)
    (adj : String → List String) (thisPeer : String) (thisRoutes : List Cidr) :
    ∀ (fuel : Nat) (node : MeshNode) (visited : List String) ips rts vis,
      recurseEdges nodes routes adj thisPeer thisRoutes fuel node visited =
          .ok (ips, rts, vis) →
      ∀ x ∈ ips,
        (∃ m ∈ nodes, m.privateIPv4 = some x ∨ m.networkIPv6 = some x) ∨
          x ∉ thisRoutes := by
  intro fuel
  induction fuel with
  | zero =>
    intro node visited ips rts vis h
    exact absurd h (by simp [recurseEdges])
  | succ f ihf =>
    intro node visited ips rts vis h x hx
    simp only [recurseEdges] at h
    have hloop := recurseEdgesLoop_ips_inv nodes routes adj thisPeer thisRoutes
      _ (fun n v ips' rts' vis' he => ihf n v ips' rts' vis' he)
      _ _ _ _ _ _ _ h x hx
    rcases hloop with hacc | hgood
    · exact absurd hacc (List.not_mem_nil x)
    · exact hgood

/-- C6: for a direct peer, advertised destination prefixes flow into
`AllowedAddresses` unless they duplicate a prefix the requesting node
advertises itself; a peer with no routes instead receives the
requesting node's prefixes in `AllowedRoutes`; and (when no node
address collides with a requesting-node route prefix) none of the
requesting node's own prefixes ever lands in `AllowedAddresses` — the
propagation is one-directional and asymmetric. -/
theorem C6_route_propagation (nodes : List MeshNode) (routes : List Route)
    (adj : String → List String) (thisPeer : String) (thisRoutes : List Cidr)
    (node : MeshNode) (ips rts : List Cidr)
    (h : recursePeers nodes routes adj thisPeer thisRoutes node = .ok (ips, rts)) :
    (getRoutesByNode routes node.id ≠ [] →
      ∀ pfx ∈ routeCidrsOf (getRoutesByNode routes node.id),
        pfx ∉ thisRoutes → pfx ∈ ips) ∧
    (getRoutesByNode routes node.id = [] → ∀ pfx ∈ thisRoutes, pfx ∈ rts) ∧
    (node ∈ nodes →
      (∀ m ∈ nodes, ∀ c ∈ thisRoutes,
        m.privateIPv4 ≠ some c ∧ m.networkIPv6 ≠ some c) →
      ∀ x ∈ thisRoutes, x ∉ ips) := by
  simp only [recursePeers] at h
  split at h
  · exact absurd h (by simp)
  · rename_i edgeIPs edgeRoutes vis hE
    simp only [Except.ok.injEq, Prod.mk.injEq] at h
    obtain ⟨hips, hrts⟩ := h
    subst hips
    subst hrts
    refine ⟨?_, ?_, ?_⟩
    · intro hne pfx hpfx hnr
      have hie : ¬((getRoutesByNode routes node.id).isEmpty = true) := by
        intro hh
        exact hne (List.isEmpty_iff.mp hh)
      rw [if_neg hie]
      obtain ⟨r, hr, hxr⟩ := (mem_routeCidrsOf _ _).mp hpfx
      exact mem_appendMissing_left _ _ _
        (mem_appendRouteCidrs_of _ _ _ r hr pfx hxr hnr)
    · intro hnil pfx hpfx
      have hie : (getRoutesByNode routes node.id).isEmpty = true := by
        rw [hnil]; rfl
      have hts : thisRoutes.isEmpty = false := by
        cases thisRoutes with
        | nil => exact absurd hpfx (List.not_mem_nil pfx)
        | cons a b => rfl
      have hcond : ((getRoutesByNode routes node.id).isEmpty && !thisRoutes.isEmpty) = true := by
        rw [hie, hts]; rfl
      rw [if_pos hcond]
      exact mem_appendMissing_left _ _ _ (mem_appendMissing_right _ _ _ hpfx)
    · intro hmem hfree x hx hxin
      rcases mem_appendMissing _ _ _ hxin with h1 | h2
      · by_cases hre : (getRoutesByNode routes node.id).isEmpty = true
        · rw [if_pos hre] at h1
          rcases mem_appendAddrs _ _ _ h1 with h0 | haddr
          · exact absurd h0 (List.not_mem_nil x)
          · rcases haddr with h4 | h6
            · exact (hfree node hmem x hx).1 h4
            · exact (hfree node hmem x hx).2 h6
        · rw [if_neg hre] at h1
          rcases mem_appendRouteCidrs _ _ _ _ h1 with h3 | hout
          · rcases mem_appendAddrs _ _ _ h3 with h0 | haddr
            · exact absurd h0 (List.not_mem_nil x)
            · rcases haddr with h4 | h6
              · exact (hfree node hmem x hx).1 h4
              · exact (hfree node hmem x hx).2 h6
          · exact hout hx
      · rcases recurseEdges_ips_inv nodes routes adj thisPeer thisRoutes
            _ _ _ _ _ _ hE x h2 with ⟨m, hm, haddr⟩ | hout
        · rcases haddr with h4 | h6
          · exact (hfree m hm x hx).1 h4
          · exact (hfree m hm x hx).2 h6
        · exact hout hx

/-- Witness for C6: a peer advertising `10.1.0.0/24` resolved for a
requester advertising `10.9.0.0/24`. -/
theorem C6_route_propagation_witness :
    let nodes : List MeshNode :=
      [{ id := "X", privateIPv4 := some "10.0.0.2/32",
         networkIPv6 := some "fd00::2/128" }]
    let routes : List Route :=
      [{ name := "r1", nodes := ["X"], dstCidrs := ["10.1.0.0/24"] }]
    let adj : String → List String := fun _ => []
    let node : MeshNode :=
      { id := "X", privateIPv4 := some "10.0.0.2/32",
        networkIPv6 := some "fd00::2/128" }
    (getRoutesByNode routes node.id ≠ [] →
      ∀ pfx ∈ routeCidrsOf (getRoutesByNode routes node.id),
        pfx ∉ ["10.9.0.0/24"] →
          pfx ∈ ["10.0.0.2/32", "fd00::2/128", "10.1.0.0/24"]) ∧
    (getRoutesByNode routes node.id = [] →
      ∀ pfx ∈ ["10.9.0.0/24"], pfx ∈ ([] : List Cidr)) ∧
    (node ∈ nodes →
      (∀ m ∈ nodes, ∀ c ∈ ["10.9.0.0/24"],
        m.privateIPv4 ≠ some c ∧ m.networkIPv6 ≠ some c) →
      ∀ x ∈ ["10.9.0.0/24"],
        x ∉ ["10.0.0.2/32", "fd00::2/128", "10.1.0.0/24"]) := by
  intro nodes routes adj node
  exact C6_route_propagation nodes routes adj "R" ["10.9.0.0/24"] node
    ["10.0.0.2/32", "fd00::2/128", "10.1.0.0/24"] [] rfl

/-- The allowed lists a direct peer resolves to are duplicate-free, as
long as the peer's two address families differ (always true of parsed
`netip` prefixes). -/
theorem recursePeers_nodup (nodes : List MeshNode) (routes : List Route)
    (adj : String → List String) (thisPeer : String) (thisRoutes : List Cidr)
    (node : MeshNode) (ips rts : List Cidr)
    (h : recursePeers nodes routes adj thisPeer thisRoutes node = .ok (ips, rts))
    (hn : ∀ c, ¬(node.privateIPv4 = some c ∧ node.networkIPv6 = some c)) :
    ips.Nodup ∧ rts.Nodup := by
  simp only [recursePeers] at h
  split at h
  · exact absurd h (by simp)
  · rename_i edgeIPs edgeRoutes vis hE
    simp only [Except.ok.injEq, Prod.mk.injEq] at h
    obtain ⟨h1, h2⟩ := h
    subst h1
    subst h2
    constructor
    · apply nodup_appendMissing
      by_cases hre : (getRoutesByNode routes node.id).isEmpty = true
      · rw [if_pos hre]
        exact nodup_appendAddrs_nil node hn
      · rw [if_neg hre]
        exact nodup_appendRouteCidrs _ _ _ (nodup_appendAddrs_nil node hn)
    · apply nodup_appendMissing
      by_cases hcond :
          ((getRoutesByNode routes node.id).isEmpty && !thisRoutes.isEmpty) = true
      · rw [if_pos hcond]
        exact nodup_appendMissing _ _ List.nodup_nil
      · rw [if_neg hcond]
        exact List.nodup_nil

/-- C10: every peer entry produced by peer resolution carries allowed-IP
and allowed-route lists without duplicate prefixes, for any replicated
state in which no node has identical IPv4 and IPv6 prefixes (always
true of parsed `netip` prefixes of different families). -/
theorem C10_no_duplicate_allowed (nodes : List MeshNode)
    (routes : List Route) (adj : String → List String) (peerID : String)
    (out : List WireGuardPeer)
    (h : wireGuardPeersFor nodes routes adj peerID = .ok out)
    (haddr : ∀ n ∈ nodes, ∀ c,
      ¬(n.privateIPv4 = some c ∧ n.networkIPv6 = some c)) :
    ∀ p ∈ out, p.allowedIps.Nodup ∧ p.allowedRoutes.Nodup := by
  intro p hp
  simp only [wireGuardPeersFor] at h
  obtain ⟨a, -, hfa⟩ := collectPeers_mem _ _ _ h p hp
  simp only [buildPeerEntry] at hfa
  split at hfa
  · exact absurd hfa (by simp)
  · rename_i node hv
    split at hfa
    · exact absurd hfa (by simp)
    · rename_i pr hr
      obtain ⟨ips, rts⟩ := pr
      simp only [Except.ok.injEq] at hfa
      subst hfa
      have hmem := (graphVertex_ok nodes a node hv).2
      exact recursePeers_nodup nodes routes adj peerID _ node ips rts hr
        (haddr node hmem)

/-- Witness for C10 on the chain scenario. -/
theorem C10_no_duplicate_allowed_witness :
    chainPeerBforA.allowedIps.Nodup ∧ chainPeerBforA.allowedRoutes.Nodup := by
  have haddr : ∀ n ∈ chainState.nodes, ∀ c : Cidr,
      ¬(n.privateIPv4 = some c ∧ n.networkIPv6 = some c) := by
    intro n hn c hc
    obtain ⟨h4, h6⟩ := hc
    simp only [chainState, List.mem_cons, List.not_mem_nil, or_false] at hn
    rcases hn with h | h | h <;> subst h <;> simp_all <;> subst h4 <;>
      exact absurd h6 (by decide)
  exact C10_no_duplicate_allowed chainState.nodes chainState.routes
    (filterAdjacency chainState) "A" [chainPeerBforA] rfl haddr
    chainPeerBforA (List.mem_singleton.mpr rfl)

/-- C7: `PutNetworkACL` and `DeleteNetworkACL` reject the system
bootstrap-nodes ACL name before touching the store, and for any other
name they do not fail for this reason. -/
theorem C7_system_acl_immutable (db : List (String × DbNetworkACL))
    (acl : V1NetworkACL) (name : String) :
    (IsSystemNetworkACL acl.name = true →
      (putNetworkACL db acl).2 = db ∧
        ∃ e, (putNetworkACL db acl).1 = .error e) ∧
    (IsSystemNetworkACL name = true →
      (deleteNetworkACL db name).2 = db ∧
        ∃ e, (deleteNetworkACL db name).1 = .error e) ∧
    (IsSystemNetworkACL acl.name = false →
      (putNetworkACL db acl).1 = .ok ()) ∧
    (IsSystemNetworkACL name = false →
      (deleteNetworkACL db name).1 = .ok ()) := by
  refine ⟨?_, ?_, ?_, ?_⟩ <;> intro h <;>
    simp [putNetworkACL, deleteNetworkACL, h]

/-- Witness for C7: the system name is rejected on an empty store, a
plain name is accepted. -/
theorem C7_system_acl_immutable_witness :
    ((putNetworkACL [] { name := "bootstrap-nodes" }).2 = [] ∧
      ∃ e, (putNetworkACL [] { name := "bootstrap-nodes" }).1 = .error e) ∧
    ((deleteNetworkACL [] "bootstrap-nodes").2 = [] ∧
      ∃ e, (deleteNetworkACL [] "bootstrap-nodes").1 = .error e) ∧
    (putNetworkACL [] { name := "allow-all" }).1 = .ok () ∧
    (deleteNetworkACL [] "allow-all").1 = .ok () := by
  refine ⟨?_, ?_, ?_, ?_⟩
  · exact (C7_system_acl_immutable [] { name := "bootstrap-nodes" } "bootstrap-nodes").1 rfl
  · exact (C7_system_acl_immutable [] { name := "bootstrap-nodes" } "bootstrap-nodes").2.1 rfl
  · exact (C7_system_acl_immutable [] { name := "allow-all" } "allow-all").2.2.1 rfl
  · exact (C7_system_acl_immutable [] { name := "allow-all" } "allow-all").2.2.2 rfl

/-- Reading a keyed list past a non-matching head. -/
theorem getRoute_cons_ne (kv : String × Route) (rest : List (String × Route))
    (name : String) (h : (kv.1 == name) = false) :
    getRoute (kv :: rest) name = getRoute rest name := by
  have hf : List.find? (fun kv => kv.1 == name) (kv :: rest) =
      List.find? (fun kv => kv.1 == name) rest := by
    simp only [List.find?]
    rw [h]
  simp only [getRoute, hf]

/-- Reading a keyed list at a matching head. -/
theorem getRoute_cons_eq (kv : String × Route) (rest : List (String × Route))
    (name : String) (h : (kv.1 == name) = true) :
    getRoute (kv :: rest) name = .ok kv.2 := by
  have hf : List.find? (fun kv => kv.1 == name) (kv :: rest) = some kv := by
    simp only [List.find?]
    rw [h]
  simp only [getRoute, hf]

/-- Upserting a key makes it readable with the stored value. -/
theorem getRoute_upsert_same (db : List (String × Route)) (k : String)
    (v : Route) : getRoute (upsert db k v) k = .ok v := by
  induction db with
  | nil =>
    rw [show upsert [] k v = [(k, v)] from rfl]
    exact getRoute_cons_eq (k, v) [] k (by simp)
  | cons kv rest ih =>
    by_cases h : kv.1 = k
    · rw [show upsert (kv :: rest) k v = (k, v) :: rest from by simp [upsert, h]]
      exact getRoute_cons_eq (k, v) rest k (by simp)
    · rw [show upsert (kv :: rest) k v = kv :: upsert rest k v from by simp [upsert, h]]
      rw [getRoute_cons_ne kv (upsert rest k v) k (by simp [h])]
      exact ih

/-- Upserting one key leaves reads of other keys unchanged. -/
theorem getRoute_upsert_other (db : List (String × Route)) (k name : String)
    (v : Route) (hne : k ≠ name) :
    getRoute (upsert db k v) name = getRoute db name := by
  induction db with
  | nil =>
    rw [show upsert [] k v = [(k, v)] from rfl]
    rw [getRoute_cons_ne (k, v) [] name (by simp [hne])]
  | cons kv rest ih =>
    by_cases h : kv.1 = k
    · rw [show upsert (kv :: rest) k v = (k, v) :: rest from by simp [upsert, h]]
      rw [getRoute_cons_ne (k, v) rest name (by simp [hne])]
      rw [getRoute_cons_ne kv rest name (by simp [h, hne])]
    · rw [show upsert (kv :: rest) k v = kv :: upsert rest k v from by simp [upsert, h]]
      by_cases h2 : kv.1 = name
      · rw [getRoute_cons_eq kv (upsert rest k v) name (by simp [h2])]
        rw [getRoute_cons_eq kv rest name (by simp [h2])]
      · rw [getRoute_cons_ne kv (upsert rest k v) name (by simp [h2])]
        rw [getRoute_cons_ne kv rest name (by simp [h2])]
        exact ih

/-- Upserting the same key-value pair twice equals doing it once. -/
theorem upsert_upsert_same (db : List (String × Route)) (k : String)
    (v : Route) : upsert (upsert db k v) k v = upsert db k v := by
  induction db with
  | nil => simp [upsert]
  | cons kv rest ih =>
    by_cases h : kv.1 = k
    · simp [upsert, h]
    · simp [upsert, h, ih]

/-- C9: `AppendNodeToRoute` is idempotent — a node already on the route
makes the call a successful no-op, and running the call twice with the
same arguments produces exactly the single-call result and state. -/
theorem C9_append_node_idempotent (db : List (String × Route))
    (routeName nodeName : String) :
    (∀ rt, getRoute db routeName = .ok rt → nodeName ∈ rt.nodes →
      appendNodeToRoute db routeName nodeName = (.ok (), db)) ∧
    (appendNodeToRoute (appendNodeToRoute db routeName nodeName).2
        routeName nodeName =
      appendNodeToRoute db routeName nodeName) := by
  constructor
  · intro rt hrt hmem
    simp [appendNodeToRoute, hrt, hmem]
  · cases hg : getRoute db routeName with
    | error e => simp [appendNodeToRoute, hg]
    | ok route =>
      by_cases hm : nodeName ∈ route.nodes
      · simp [appendNodeToRoute, hg, hm]
      · by_cases hn : route.name = routeName
        · have h2 : getRoute
              (upsert db route.name { route with nodes := route.nodes ++ [nodeName] })
              routeName =
              .ok { route with nodes := route.nodes ++ [nodeName] } := by
            rw [hn]
            exact getRoute_upsert_same db routeName _
          have hmv : nodeName ∈ route.nodes ++ [nodeName] := by simp
          simp [appendNodeToRoute, hg, hm, putRoute, h2, hmv]
        · have h2 := getRoute_upsert_other db route.name routeName
            { route with nodes := route.nodes ++ [nodeName] } hn
          rw [hg] at h2
          simp [appendNodeToRoute, hg, hm, putRoute, h2, upsert_upsert_same]

/-- Witness for C9 on a one-route store. -/
theorem C9_append_node_idempotent_witness :
    (appendNodeToRoute [("r1", { name := "r1", nodes := ["n1"] })] "r1" "n1" =
      (.ok (), [("r1", { name := "r1", nodes := ["n1"] })])) ∧
    (appendNodeToRoute
        (appendNodeToRoute [("r1", { name := "r1", nodes := ["n1"] })] "r1" "n2").2
        "r1" "n2" =
      appendNodeToRoute [("r1", { name := "r1", nodes := ["n1"] })] "r1" "n2") := by
  constructor
  · exact (C9_append_node_idempotent
      [("r1", { name := "r1", nodes := ["n1"] })] "r1" "n1").1
      { name := "r1", nodes := ["n1"] } rfl (by decide)
  · exact (C9_append_node_idempotent
      [("r1", { name := "r1", nodes := ["n1"] })] "r1" "n2").2


/-- C8: Bootstrap is idempotent.  When mesh-domain state exists it
returns the stored prefixes and domain with the already-bootstrapped
error and mutates nothing; consequently a second Bootstrap after a
successful first returns the first call's prefixes and domain with the
already-bootstrapped signal and an unchanged database. -/
theorem C8_bootstrap_idempotent (ula ula2 : Cidr) (db : MeshDB)
    (opts opts2 : BootstrapOptions) :
    (∀ d p4 p6, db.meshState.meshDomain = some d →
      db.meshState.networkV4 = some p4 → db.meshState.networkV6 = some p6 →
      bootstrap ula db opts =
        (({ networkV4 := p4, networkV6 := p6, meshDomain := d },
          some errAlreadyBootstrapped), db)) ∧
    (∀ res db2, bootstrap ula db opts = ((res, none), db2) →
      bootstrap ula2 db2 opts2 =
        ((res, some errAlreadyBootstrapped), db2)) := by
  constructor
  · intro d p4 p6 hd h4 h6
    simp [bootstrap, hd, h4, h6]
  · intro res db2 h
    cases hd : db.meshState.meshDomain with
    | some d =>
      cases h4 : db.meshState.networkV4 with
      | none => simp [bootstrap, hd, h4] at h
      | some v4 =>
        cases h6 : db.meshState.networkV6 with
        | none => simp [bootstrap, hd, h4, h6] at h
        | some v6 => simp [bootstrap, hd, h4, h6] at h
    | none =>
      simp only [bootstrap, hd] at h
      simp only [Prod.mk.injEq] at h
      obtain ⟨⟨hres, -⟩, hdb⟩ := h
      subst hres
      subst hdb
      simp [bootstrap]

/-- Witness for C8: a pre-bootstrapped database is returned unchanged
with the already-bootstrapped signal, and a fresh bootstrap followed by
a second call reproduces the first call's results. -/
theorem C8_bootstrap_idempotent_witness :
    (bootstrap "fd00:aaaa::/48"
        { meshState := { meshDomain := some "webmesh.internal",
                         networkV4 := some "172.16.0.0/12",
                         networkV6 := some "fd00::/48" } }
        {} =
      (({ networkV4 := "172.16.0.0/12", networkV6 := "fd00::/48",
          meshDomain := "webmesh.internal" }, some errAlreadyBootstrapped),
        { meshState := { meshDomain := some "webmesh.internal",
                         networkV4 := some "172.16.0.0/12",
                         networkV6 := some "fd00::/48" } })) ∧
    (bootstrap "fd99::/48" (bootstrap "fd00::/48" ({} : MeshDB) {}).2 {} =
      (((bootstrap "fd00::/48" ({} : MeshDB) {}).1.1,
        some errAlreadyBootstrapped),
        (bootstrap "fd00::/48" ({} : MeshDB) {}).2)) := by
  constructor
  · exact (C8_bootstrap_idempotent "fd00:aaaa::/48" "fd00:aaaa::/48"
      { meshState := { meshDomain := some "webmesh.internal",
                       networkV4 := some "172.16.0.0/12",
                       networkV6 := some "fd00::/48" } } {} {}).1
      "webmesh.internal" "172.16.0.0/12" "fd00::/48" rfl rfl rfl
  · exact (C8_bootstrap_idempotent "fd00::/48" "fd99::/48" {} {} {}).2
      (bootstrap "fd00::/48" ({} : MeshDB) {}).1.1
      (bootstrap "fd00::/48" ({} : MeshDB) {}).2 rfl
